import Mathlib

/-!
Verification of the square-frame image pipeline (`sqframe`).

The repository holds two near-identical Rust sources, `src/lib.rs` and
`src/main.rs`.  Both share the same core: geometry planning
(`sqside`/`factor`/resized dimensions/crop offsets computed with `u32`
floor division), a resize delegated to the `image` crate, a centered
crop, a Gaussian blur delegated to the `fastblur` crate, and an
`overlay` loop that walks the background raster and consumes the
foreground's pixel iterator inside a centered rectangle.

Machine `u32` arithmetic is modelled with `Nat`: Rust's debug builds
abort on overflow rather than produce values, and every claim concerns
the values produced, all obtained by `max`, `min`, truncating division
and subtraction of in-range quantities.  Pixel channels are `Nat`-valued
bytes; images are a width, a height and a total pixel function, which
models the dense row-major buffer of the `image` crate.
-/

/-- An RGBA pixel, as yielded by `DynamicImage::pixels()` (`image` crate). -/
structure Rgba where
  r : Nat
  g : Nat
  b : Nat
  a : Nat
deriving DecidableEq, Repr

/-- An RGB pixel, as stored in an `RgbImage` buffer. -/
structure Rgb where
  r : Nat
  g : Nat
  b : Nat
deriving DecidableEq, Repr

/-- `Rgba::to_rgb()`: the alpha channel is discarded. -/
def Rgba.toRgb (c : Rgba) : Rgb := ⟨c.r, c.g, c.b⟩

/-- Reading a pixel of an `ImageRgb8` back through the `DynamicImage`
interface (`get_pixel`) yields the RGB channels with alpha 255. -/
def Rgb.toRgba (c : Rgb) : Rgba := ⟨c.r, c.g, c.b, 255⟩

/-- A decoded image (`DynamicImage`): dimensions plus a pixel lookup. -/
structure Image where
  width : Nat
  height : Nat
  pix : Nat → Nat → Rgba

/-- An RGB image buffer (`RgbImage`). -/
structure ImageRgb where
  width : Nat
  height : Nat
  pix : Nat → Nat → Rgb

/-- Wrapping an `RgbImage` as `DynamicImage::ImageRgb8`. -/
def ImageRgb.toDyn (img : ImageRgb) : Image :=
  ⟨img.width, img.height, fun x y => (img.pix x y).toRgba⟩

/-- The cells of row `y`, left to right: `(0, y), (1, y), …, (w-1, y)`. -/
def rowList (w y : Nat) : List (Nat × Nat) :=
  (List.range w).map (fun x => (x, y))

/-- All pixel coordinates of a `w × h` raster in row-major order, the
order of both `image.pixels()` and the nested `for y { for x { … } }`
loops of the Rust sources. -/
def rasterPositions (w h : Nat) : List (Nat × Nat) :=
  (List.range h).bind (fun y => rowList w y)

/-- The coordinates traversed strictly before `(x, y)` in row-major
order over a raster of width `w`: all rows above, then row `y` up to
column `x` exclusive. -/
def prefixPositions (w x y : Nat) : List (Nat × Nat) :=
  rasterPositions w y ++ rowList x y

/-- The `k`-th element of `fg.pixels()`, the foreground's raster-order
pixel iterator: `none` once the iterator is exhausted. -/
def fgPixel (fg : Image) (k : Nat) : Option Rgba :=
  if k < fg.width * fg.height then some (fg.pix (k % fg.width) (k / fg.width)) else none

/-- A mutable `RgbImage` pixel buffer, as a total assignment. -/
abbrev Buf := Nat → Nat → Rgb

/-- `put_pixel`: point update of a buffer. -/
def updateBuf (b : Buf) (px py : Nat) (v : Rgb) : Buf :=
  fun x y => if x = px ∧ y = py then v else b x y

/-- The membership test `x_rng.contains(&x) && y_rng.contains(&y)` of
`overlay`, on the centered rectangle `[x0, x1) × [y0, y1)`. -/
def insideB (x0 x1 y0 y1 : Nat) (p : Nat × Nat) : Bool :=
  decide (x0 ≤ p.1 ∧ p.1 < x1 ∧ y0 ≤ p.2 ∧ p.2 < y1)

/-- One iteration of `overlay`'s inner loop at position `p`, acting on
the state (buffer so far, number of foreground-iterator polls): inside
the rectangle it polls `fg.pixels()` and writes the pixel if any
(`match orig_pixels.next() { Some(px) => put_pixel…, _ => {} }`);
outside it writes the background pixel. -/
def overlayStep (bg fg : Image) (x0 x1 y0 y1 : Nat) (s : Buf × Nat) (p : Nat × Nat) :
    Buf × Nat :=
  if insideB x0 x1 y0 y1 p then
    match fgPixel fg s.2 with
    | some px => (updateBuf s.1 p.1 p.2 px.toRgb, s.2 + 1)
    | none => (s.1, s.2 + 1)
  else
    (updateBuf s.1 p.1 p.2 ((bg.pix p.1 p.2).toRgb), s.2)

/-- The value `overlay`'s loop stores at `(x, y)` when it visits that
cell with the foreground iterator at position `k` and buffer `base`:
inside the rectangle, the next foreground pixel if the iterator still
has one (otherwise the cell is left as `base` has it); outside, the
background pixel. -/
def cellVal (bg fg : Image) (x0 x1 y0 y1 : Nat) (base : Buf) (k : Nat) (x y : Nat) : Rgb :=
  if insideB x0 x1 y0 y1 (x, y) then
    match fgPixel fg k with
    | some px => px.toRgb
    | none => base x y
  else (bg.pix x y).toRgb

/-- The geometry computed by `run` (`src/lib.rs`) and `main`
(`src/main.rs`): `sqside`, `factor`, the resized dimensions and the
crop offsets, all in truncating (`u32`) division. -/
structure Geometry where
  sqside : Nat
  factor : Nat
  resizedWidth : Nat
  resizedHeight : Nat
  cropX : Nat
  cropY : Nat
deriving DecidableEq, Repr

/-- Modelled from the spec: the Cropper (§4.3), backed by the external
`image` crate's `DynamicImage::crop(x, y, width, height)`, which is not
part of this repository's sources.  Per the contract it returns the
`width × height` sub-rectangle at offset `(x, y)`, copied
pixel-for-pixel; the canonical pipeline only calls it with an in-bounds
rectangle (claim about `crop_x + side ≤ resized_width`). -/
def cropImage (img : Image) (cx cy cw ch : Nat) : Image :=
  ⟨cw, ch, fun x y => img.pix (cx + x) (cy + y)⟩

namespace Lib

/-- `src/lib.rs` `get_colors`: the RGB values of `image.pixels()` in
raster order. -/
def getColors (img : Image) : List Rgb :=
  (rasterPositions img.width img.height).map (fun p => (img.pix p.1 p.2).toRgb)

/-- `src/lib.rs` `blur`: collect the colors, run the external
`fastblur::gaussian_blur` (passed in as `gauss`, since `fastblur` is
not part of this repository's sources; it permutes channel values but
keeps the buffer length), and write the result back row-major into a
fresh `RgbImage` with `pixel_index = y * width + x`. -/
def blur (gauss : List Rgb → List Rgb) (img : Image) : ImageRgb :=
  ⟨img.width, img.height,
    fun x y => (gauss (getColors img)).getD (y * img.width + x) ⟨0, 0, 0⟩⟩

/-- `src/lib.rs` `overlay`: a fresh `RgbImage::new(bg_width, bg_height)`
buffer (zero-initialized), filled by the row-major double loop via
`overlayStep`, with the centered rectangle bounds
`(bg_w − fg_w)/2 ≤ x < (bg_w + fg_w)/2` and likewise for `y`. -/
def overlay (bg fg : Image) : ImageRgb :=
  ⟨bg.width, bg.height,
    ((rasterPositions bg.width bg.height).foldl
      (overlayStep bg fg ((bg.width - fg.width) / 2) ((bg.width + fg.width) / 2)
        ((bg.height - fg.height) / 2) ((bg.height + fg.height) / 2))
      (fun _ _ => ⟨0, 0, 0⟩, 0)).1⟩

/-- `src/lib.rs` `run`: the geometry `let` bindings
`sqside = max(width, height)`, `factor = min(width, height)`,
`resized_width = width * sqside / factor`,
`resized_height = height * sqside / factor`, and the two crop
arguments `(resized_width - sqside) / 2`, `(resized_height - sqside) / 2`. -/
def planGeometry (width height : Nat) : Geometry :=
  let sqside := max width height
  let factor := min width height
  let resizedWidth := width * sqside / factor
  let resizedHeight := height * sqside / factor
  ⟨sqside, factor, resizedWidth, resizedHeight,
    (resizedWidth - sqside) / 2, (resizedHeight - sqside) / 2⟩

/-- The core of `src/lib.rs` `run` (between decode and save): plan the
geometry, resize (external `image::DynamicImage::resize`, passed in as
`resample`), center-crop, blur, and overlay the original on top. -/
def runPipeline (resample : Image → Nat → Nat → Image)
    (gauss : List Rgb → List Rgb) (image : Image) : ImageRgb :=
  let g := planGeometry image.width image.height
  let bg1 := resample image g.resizedWidth g.resizedHeight
  let bg2 := cropImage bg1 g.cropX g.cropY g.sqside g.sqside
  let bg3 := blur gauss bg2
  overlay bg3.toDyn image

end Lib

namespace Main

/-- `src/main.rs` `get_colors`: the RGB values of `image.pixels()` in
raster order. -/
def getColors (img : Image) : List Rgb :=
  (rasterPositions img.width img.height).map (fun p => (img.pix p.1 p.2).toRgb)

/-- `src/main.rs` `blur`: identical to the `src/lib.rs` variant. -/
def blur (gauss : List Rgb → List Rgb) (img : Image) : ImageRgb :=
  ⟨img.width, img.height,
    fun x y => (gauss (getColors img)).getD (y * img.width + x) ⟨0, 0, 0⟩⟩

/-- `src/main.rs` `overlay`: identical to the `src/lib.rs` variant. -/
def overlay (bg fg : Image) : ImageRgb :=
  ⟨bg.width, bg.height,
    ((rasterPositions bg.width bg.height).foldl
      (overlayStep bg fg ((bg.width - fg.width) / 2) ((bg.width + fg.width) / 2)
        ((bg.height - fg.height) / 2) ((bg.height + fg.height) / 2))
      (fun _ _ => ⟨0, 0, 0⟩, 0)).1⟩

/-- `src/main.rs` `main`, geometry `let` bindings (lines 166–170 and
the crop arguments): identical to the `src/lib.rs` variant. -/
def planGeometry (width height : Nat) : Geometry :=
  let sqside := max width height
  let factor := min width height
  let resizedWidth := width * sqside / factor
  let resizedHeight := height * sqside / factor
  ⟨sqside, factor, resizedWidth, resizedHeight,
    (resizedWidth - sqside) / 2, (resizedHeight - sqside) / 2⟩

/-- The core of `src/main.rs` `main` (between decode and save): the
same five stages as `src/lib.rs` `run`. -/
def runPipeline (resample : Image → Nat → Nat → Image)
    (gauss : List Rgb → List Rgb) (image : Image) : ImageRgb :=
  let g := planGeometry image.width image.height
  let bg1 := resample image g.resizedWidth g.resizedHeight
  let bg2 := cropImage bg1 g.cropX g.cropY g.sqside g.sqside
  let bg3 := blur gauss bg2
  overlay bg3.toDyn image

end Main

namespace Lib

/-- `src/lib.rs` `ConfirmResult`.  The Rust enum also has an
`IOError(io::Error)` variant for a failed `read_line`; stdin is
modelled as the list of successfully read lines, so that variant does
not arise in the model. -/
inductive ConfirmResult where
  | Continue
  | Stop
deriving DecidableEq, Repr

/-- ASCII whitespace, as stripped from a read line by `str::trim`. -/
def isWhite (c : Char) : Bool :=
  c = ' ' ∨ c = '\t' ∨ c = '\n' ∨ c = '\r'

/-- Strip leading and trailing whitespace from a character list. -/
def trimChars (l : List Char) : List Char :=
  ((l.dropWhile isWhite).reverse.dropWhile isWhite).reverse

/-- `resp.trim().to_lowercase()` performed by `confirm` on each line
(ASCII whitespace and ASCII lowering, which agree with Rust's Unicode
versions on the ASCII answers the prompt recognizes). -/
def normalizeResp (s : String) : String := ⟨(trimChars s.data).map Char.toLower⟩

/-- `src/lib.rs` `confirm`, with stdin as the list of lines read: the
loop prints the prompt, reads a line, trims and lowercases it, returns
`Continue` on `y`/`yes` and `Stop` on `n`/`no`, and otherwise loops.
The result carries the number of prompts printed (one per line
consumed); `none` when stdin runs out of lines before a recognized
answer (the Rust loop then re-prompts on end-of-file forever). -/
def confirmRun : List String → Option (ConfirmResult × Nat)
  | [] => none
  | line :: rest =>
    let resp := normalizeResp line
    if resp = "y" ∨ resp = "yes" then some (ConfirmResult.Continue, 1)
    else if resp = "n" ∨ resp = "no" then some (ConfirmResult.Stop, 1)
    else
      match confirmRun rest with
      | some (r, n) => some (r, n + 1)
      | none => none

/-- `src/lib.rs` `get_timestamp_suffix`, with the clock read
`SystemTime::now().duration_since(UNIX_EPOCH)` modelled as an
`Option Nat` of milliseconds: a hyphen followed by the millisecond
timestamp on success, the empty string on failure. -/
def getTimestampSuffix (clock : Option Nat) : String :=
  match clock with
  | some ms => "-" ++ toString ms
  | none => ""

/-- What the output path names, as tested by
`is_dir`/`is_symlink`/`is_file` in `save_image_to_path`. -/
inductive PathKind where
  | dir
  | symlink
  | file
  | absent
deriving DecidableEq, Repr

/-- A filesystem action `save_image_to_path` performs at the output
location: renaming the existing file to the named backup file inside
the temporary directory (`fs::rename`), or writing the new image file
(`image.save`). -/
inductive FsAction where
  | rename (backupFileName : String)
  | write
deriving DecidableEq, Repr

/-- The observable outcome of `save_image_to_path`: the process exit
status, the filesystem actions in program order, and the number of
confirmation prompts printed. -/
structure SaveResult where
  exitCode : Nat
  actions : List FsAction
  prompts : Nat
deriving DecidableEq, Repr

/-- `src/lib.rs` `save_image_to_path`, for an output path of the given
kind, the stdin lines, and the clock reading.  A directory or symlink
is fatal (`raise`, exit 1).  An existing file triggers `confirm`; on
`Continue` the file is renamed to `temp_dir.join("BACKUP" + suffix)`
and then the new file is written (`fs::rename` and `image.save` are
modelled as succeeding; their I/O failures are fatal `raise`s), after
which `run` returns and the process exits 0; on `Stop` the function
prints an instruction and calls `process::exit(0)` without touching
the filesystem.  A fresh path is written directly.  `none` when stdin
is exhausted before a recognized answer. -/
def saveImageToPath (kind : PathKind) (stdin : List String) (clock : Option Nat) :
    Option SaveResult :=
  match kind with
  | PathKind.dir => some ⟨1, [], 0⟩
  | PathKind.symlink => some ⟨1, [], 0⟩
  | PathKind.file =>
    match confirmRun stdin with
    | some (ConfirmResult.Continue, n) =>
        some ⟨0, [FsAction.rename ("BACKUP" ++ getTimestampSuffix clock), FsAction.write], n⟩
    | some (ConfirmResult.Stop, n) => some ⟨0, [], n⟩
    | none => none
  | PathKind.absent => some ⟨0, [FsAction.write], 0⟩

end Lib

-- Helper lemmas on the geometry arithmetic.

theorem Lib.planGeometry_sqside_le (w h : Nat) (hw : 0 < w) (hh : 0 < h) :
    (Lib.planGeometry w h).sqside ≤ (Lib.planGeometry w h).resizedWidth ∧
      (Lib.planGeometry w h).sqside ≤ (Lib.planGeometry w h).resizedHeight := by
  rcases le_total w h with hle | hle
  · constructor
    · show max w h ≤ w * max w h / min w h
      rw [max_eq_right hle, min_eq_left hle, Nat.mul_div_cancel_left h hw]
    · show max w h ≤ h * max w h / min w h
      rw [max_eq_right hle, min_eq_left hle]
      calc h = h * w / w := by rw [Nat.mul_div_cancel h hw]
        _ ≤ h * h / w := Nat.div_le_div_right (Nat.mul_le_mul_left h hle)
  · constructor
    · show max w h ≤ w * max w h / min w h
      rw [max_eq_left hle, min_eq_right hle]
      calc w = w * h / h := by rw [Nat.mul_div_cancel w hh]
        _ ≤ w * w / h := Nat.div_le_div_right (Nat.mul_le_mul_left w hle)
    · show max w h ≤ h * max w h / min w h
      rw [max_eq_left hle, min_eq_right hle, Nat.mul_div_cancel_left w hh]

/-- C1: the pipeline's geometry is exactly
`side = max(w,h)`, `factor = min(w,h)`,
`resized = (⌊w·side/factor⌋, ⌊h·side/factor⌋)`,
`crop = (⌊(rw−side)/2⌋, ⌊(rh−side)/2⌋)`; at `w = 100`, `h = 200` this
gives `side = 200`, `factor = 100`, `resized = (200, 400)`,
`crop = (0, 100)`. -/
theorem c1_geometry (w h : Nat) (hw : 0 < w) (hh : 0 < h) :
    (Lib.planGeometry w h).sqside = max w h ∧
    (Lib.planGeometry w h).factor = min w h ∧
    (Lib.planGeometry w h).resizedWidth = w * max w h / min w h ∧
    (Lib.planGeometry w h).resizedHeight = h * max w h / min w h ∧
    (Lib.planGeometry w h).cropX
      = ((Lib.planGeometry w h).resizedWidth - (Lib.planGeometry w h).sqside) / 2 ∧
    (Lib.planGeometry w h).cropY
      = ((Lib.planGeometry w h).resizedHeight - (Lib.planGeometry w h).sqside) / 2 ∧
    Lib.planGeometry 100 200 = ⟨200, 100, 200, 400, 0, 100⟩ := by
  refine ⟨rfl, rfl, rfl, rfl, rfl, rfl, by decide⟩

theorem c1_geometry_witness :
    0 < 100 ∧ 0 < 200 ∧
      ((Lib.planGeometry 100 200).sqside = max 100 200 ∧
      (Lib.planGeometry 100 200).factor = min 100 200 ∧
      (Lib.planGeometry 100 200).resizedWidth = 100 * max 100 200 / min 100 200 ∧
      (Lib.planGeometry 100 200).resizedHeight = 200 * max 100 200 / min 100 200 ∧
      (Lib.planGeometry 100 200).cropX
        = ((Lib.planGeometry 100 200).resizedWidth - (Lib.planGeometry 100 200).sqside) / 2 ∧
      (Lib.planGeometry 100 200).cropY
        = ((Lib.planGeometry 100 200).resizedHeight - (Lib.planGeometry 100 200).sqside) / 2 ∧
      Lib.planGeometry 100 200 = ⟨200, 100, 200, 400, 0, 100⟩) :=
  ⟨by decide, by decide, c1_geometry 100 200 (by decide) (by decide)⟩

/-- C3: for all positive dimensions, `crop_x + side ≤ resized_width`
and `crop_y + side ≤ resized_height`: the crop rectangle handed to the
Cropper always lies inside the resized image, so its fatal-error case
is unreachable in the canonical pipeline. -/
theorem c3_crop_in_bounds (w h : Nat) (hw : 0 < w) (hh : 0 < h) :
    (Lib.planGeometry w h).cropX + (Lib.planGeometry w h).sqside
        ≤ (Lib.planGeometry w h).resizedWidth ∧
      (Lib.planGeometry w h).cropY + (Lib.planGeometry w h).sqside
        ≤ (Lib.planGeometry w h).resizedHeight := by
  obtain ⟨h1, h2⟩ := Lib.planGeometry_sqside_le w h hw hh
  constructor
  · have hd : ((Lib.planGeometry w h).resizedWidth - (Lib.planGeometry w h).sqside) / 2
        ≤ (Lib.planGeometry w h).resizedWidth - (Lib.planGeometry w h).sqside :=
      Nat.div_le_self _ _
    show ((Lib.planGeometry w h).resizedWidth - (Lib.planGeometry w h).sqside) / 2
        + (Lib.planGeometry w h).sqside ≤ (Lib.planGeometry w h).resizedWidth
    omega
  · have hd : ((Lib.planGeometry w h).resizedHeight - (Lib.planGeometry w h).sqside) / 2
        ≤ (Lib.planGeometry w h).resizedHeight - (Lib.planGeometry w h).sqside :=
      Nat.div_le_self _ _
    show ((Lib.planGeometry w h).resizedHeight - (Lib.planGeometry w h).sqside) / 2
        + (Lib.planGeometry w h).sqside ≤ (Lib.planGeometry w h).resizedHeight
    omega

theorem c3_crop_in_bounds_witness :
    0 < 100 ∧ 0 < 200 ∧
      ((Lib.planGeometry 100 200).cropX + (Lib.planGeometry 100 200).sqside
          ≤ (Lib.planGeometry 100 200).resizedWidth ∧
        (Lib.planGeometry 100 200).cropY + (Lib.planGeometry 100 200).sqside
          ≤ (Lib.planGeometry 100 200).resizedHeight) :=
  ⟨by decide, by decide, c3_crop_in_bounds 100 200 (by decide) (by decide)⟩

/-- C4 counterexample: at `w = 100`, `h = 200` the larger dimension is
`h = 200 = max`, yet its resized value is `400`, not
`side = 200`; it is the smaller dimension whose resized value equals
`side`.  The claim "the resized dimension corresponding to the larger
of w and h equals side exactly" is therefore false on the code. -/
theorem c4_counterexample :
    max 100 200 = 200 ∧
      (Lib.planGeometry 100 200).resizedHeight ≠ (Lib.planGeometry 100 200).sqside ∧
      (Lib.planGeometry 100 200).resizedWidth = (Lib.planGeometry 100 200).sqside := by
  decide

/-- C4 (amended): for positive `w ≠ h`, the resized dimension
corresponding to the SMALLER of `w` and `h` equals `side = max w h`
exactly, while the larger dimension `L` is upscaled to
`⌊L·side/factor⌋`, which is at least `side` and within one pixel of the
exact ratio: `factor · resized ≤ L · side < factor · (resized + 1)`. -/
theorem c4_amended (w h : Nat) (hw : 0 < w) (hh : 0 < h) (hne : w ≠ h) :
    (w < h →
      (Lib.planGeometry w h).resizedWidth = (Lib.planGeometry w h).sqside ∧
      (Lib.planGeometry w h).sqside ≤ (Lib.planGeometry w h).resizedHeight ∧
      (Lib.planGeometry w h).factor * (Lib.planGeometry w h).resizedHeight
          ≤ h * (Lib.planGeometry w h).sqside ∧
      h * (Lib.planGeometry w h).sqside
          < (Lib.planGeometry w h).factor * ((Lib.planGeometry w h).resizedHeight + 1)) ∧
    (h < w →
      (Lib.planGeometry w h).resizedHeight = (Lib.planGeometry w h).sqside ∧
      (Lib.planGeometry w h).sqside ≤ (Lib.planGeometry w h).resizedWidth ∧
      (Lib.planGeometry w h).factor * (Lib.planGeometry w h).resizedWidth
          ≤ w * (Lib.planGeometry w h).sqside ∧
      w * (Lib.planGeometry w h).sqside
          < (Lib.planGeometry w h).factor * ((Lib.planGeometry w h).resizedWidth + 1)) := by
  constructor
  · intro hlt
    have hle : w ≤ h := Nat.le_of_lt hlt
    refine ⟨?_, ((Lib.planGeometry_sqside_le w h hw hh).2), ?_, ?_⟩
    · show w * max w h / min w h = max w h
      rw [max_eq_right hle, min_eq_left hle, Nat.mul_div_cancel_left h hw]
    · show min w h * (h * max w h / min w h) ≤ h * max w h
      exact Nat.mul_div_le _ _
    · show h * max w h < min w h * (h * max w h / min w h + 1)
      have := Nat.div_add_mod (h * max w h) (min w h)
      have hm : h * max w h % min w h < min w h :=
        Nat.mod_lt _ (by rw [min_eq_left hle]; exact hw)
      rw [Nat.mul_succ]
      omega
  · intro hlt
    have hle : h ≤ w := Nat.le_of_lt hlt
    refine ⟨?_, ((Lib.planGeometry_sqside_le w h hw hh).1), ?_, ?_⟩
    · show h * max w h / min w h = max w h
      rw [max_eq_left hle, min_eq_right hle, Nat.mul_div_cancel_left w hh]
    · show min w h * (w * max w h / min w h) ≤ w * max w h
      exact Nat.mul_div_le _ _
    · show w * max w h < min w h * (w * max w h / min w h + 1)
      have := Nat.div_add_mod (w * max w h) (min w h)
      have hm : w * max w h % min w h < min w h :=
        Nat.mod_lt _ (by rw [min_eq_right hle]; exact hh)
      rw [Nat.mul_succ]
      omega

theorem c4_amended_witness :
    0 < 100 ∧ 0 < 200 ∧ (100 : Nat) ≠ 200 ∧
      ((100 < 200 →
        (Lib.planGeometry 100 200).resizedWidth = (Lib.planGeometry 100 200).sqside ∧
        (Lib.planGeometry 100 200).sqside ≤ (Lib.planGeometry 100 200).resizedHeight ∧
        (Lib.planGeometry 100 200).factor * (Lib.planGeometry 100 200).resizedHeight
            ≤ 200 * (Lib.planGeometry 100 200).sqside ∧
        200 * (Lib.planGeometry 100 200).sqside
            < (Lib.planGeometry 100 200).factor
                * ((Lib.planGeometry 100 200).resizedHeight + 1)) ∧
      (200 < 100 →
        (Lib.planGeometry 100 200).resizedHeight = (Lib.planGeometry 100 200).sqside ∧
        (Lib.planGeometry 100 200).sqside ≤ (Lib.planGeometry 100 200).resizedWidth ∧
        (Lib.planGeometry 100 200).factor * (Lib.planGeometry 100 200).resizedWidth
            ≤ 100 * (Lib.planGeometry 100 200).sqside ∧
        100 * (Lib.planGeometry 100 200).sqside
            < (Lib.planGeometry 100 200).factor
                * ((Lib.planGeometry 100 200).resizedWidth + 1))) :=
  ⟨by decide, by decide, by decide,
    c4_amended 100 200 (by decide) (by decide) (by decide)⟩

-- Decomposition lemmas for the raster traversal.

theorem rowList_succ (w y : Nat) : rowList (w + 1) y = rowList w y ++ [(w, y)] := by
  simp [rowList, List.range_succ]

theorem rasterPositions_succ (w h : Nat) :
    rasterPositions w (h + 1) = rasterPositions w h ++ rowList w h := by
  simp [rasterPositions, List.range_succ]

-- One-step lemmas for `overlayStep`.

theorem overlayStep_snd (bg fg : Image) (x0 x1 y0 y1 : Nat) (s : Buf × Nat) (p : Nat × Nat) :
    (overlayStep bg fg x0 x1 y0 y1 s p).2
      = s.2 + (if insideB x0 x1 y0 y1 p then 1 else 0) := by
  cases hin : insideB x0 x1 y0 y1 p
  · simp [overlayStep, hin]
  · cases hpx : fgPixel fg s.2 <;> simp [overlayStep, hin, hpx]

theorem overlayStep_untouched (bg fg : Image) (x0 x1 y0 y1 : Nat) (s : Buf × Nat)
    (px py a b : Nat) (hne : ¬(a = px ∧ b = py)) :
    (overlayStep bg fg x0 x1 y0 y1 s (px, py)).1 a b = s.1 a b := by
  cases hin : insideB x0 x1 y0 y1 (px, py)
  · simp [overlayStep, hin, updateBuf, hne]
  · cases hpx : fgPixel fg s.2 <;> simp [overlayStep, hin, hpx, updateBuf, hne]

theorem overlayStep_self (bg fg : Image) (x0 x1 y0 y1 : Nat) (s : Buf × Nat) (px py : Nat) :
    (overlayStep bg fg x0 x1 y0 y1 s (px, py)).1 px py
      = cellVal bg fg x0 x1 y0 y1 s.1 s.2 px py := by
  cases hin : insideB x0 x1 y0 y1 (px, py)
  · simp [overlayStep, cellVal, hin, updateBuf]
  · cases hpx : fgPixel fg s.2 <;> simp [overlayStep, cellVal, hin, hpx, updateBuf]

theorem cellVal_congr (bg fg : Image) (x0 x1 y0 y1 : Nat) (b1 b2 : Buf) (k x y : Nat)
    (hb : b1 x y = b2 x y) :
    cellVal bg fg x0 x1 y0 y1 b1 k x y = cellVal bg fg x0 x1 y0 y1 b2 k x y := by
  cases hin : insideB x0 x1 y0 y1 (x, y)
  · simp [cellVal, hin]
  · cases hpx : fgPixel fg k <;> simp [cellVal, hin, hpx, hb]

-- The inner (per-row) loop of `overlay`, characterized.

theorem rowFold_spec (bg fg : Image) (x0 x1 y0 y1 y : Nat) :
    ∀ (n : Nat) (s : Buf × Nat),
      (((rowList n y).foldl (overlayStep bg fg x0 x1 y0 y1) s).2
          = s.2 + List.countP (insideB x0 x1 y0 y1) (rowList n y))
      ∧ (∀ x, x < n →
          ((rowList n y).foldl (overlayStep bg fg x0 x1 y0 y1) s).1 x y
            = cellVal bg fg x0 x1 y0 y1 s.1
                (s.2 + List.countP (insideB x0 x1 y0 y1) (rowList x y)) x y)
      ∧ (∀ a b, b ≠ y ∨ n ≤ a →
          ((rowList n y).foldl (overlayStep bg fg x0 x1 y0 y1) s).1 a b = s.1 a b) := by
  intro n
  induction n with
  | zero =>
    intro s
    exact ⟨by simp [rowList], fun x hx => absurd hx (Nat.not_lt_zero x),
      fun a b _ => by simp [rowList]⟩
  | succ n ih =>
    intro s
    obtain ⟨ihc, ihv, ihu⟩ := ih s
    have hfold : (rowList (n + 1) y).foldl (overlayStep bg fg x0 x1 y0 y1) s
        = overlayStep bg fg x0 x1 y0 y1
            ((rowList n y).foldl (overlayStep bg fg x0 x1 y0 y1) s) (n, y) := by
      rw [rowList_succ, List.foldl_append]
      simp
    refine ⟨?_, ?_, ?_⟩
    · rw [hfold, overlayStep_snd, ihc, rowList_succ, List.countP_append]
      cases hin : insideB x0 x1 y0 y1 (n, y) <;> simp [List.countP_cons, hin] <;> omega
    · intro x hx
      rcases Nat.lt_succ_iff_lt_or_eq.mp hx with hlt | heq
      · rw [hfold, overlayStep_untouched bg fg x0 x1 y0 y1 _ n y x y (by omega)]
        exact ihv x hlt
      · subst heq
        rw [hfold, overlayStep_self, ihc]
        exact cellVal_congr bg fg x0 x1 y0 y1 _ _ _ x y (ihu x y (Or.inr (le_refl x)))
    · intro a b hab
      rw [hfold, overlayStep_untouched bg fg x0 x1 y0 y1 _ n y a b (by omega)]
      exact ihu a b (by omega)

-- The full double loop of `overlay`, characterized.

theorem rasterFold_spec (bg fg : Image) (x0 x1 y0 y1 w : Nat) :
    ∀ (h : Nat) (s : Buf × Nat),
      (((rasterPositions w h).foldl (overlayStep bg fg x0 x1 y0 y1) s).2
          = s.2 + List.countP (insideB x0 x1 y0 y1) (rasterPositions w h))
      ∧ (∀ x y, x < w → y < h →
          ((rasterPositions w h).foldl (overlayStep bg fg x0 x1 y0 y1) s).1 x y
            = cellVal bg fg x0 x1 y0 y1 s.1
                (s.2 + List.countP (insideB x0 x1 y0 y1) (prefixPositions w x y)) x y)
      ∧ (∀ a b, h ≤ b ∨ w ≤ a →
          ((rasterPositions w h).foldl (overlayStep bg fg x0 x1 y0 y1) s).1 a b = s.1 a b) := by
  intro h
  induction h with
  | zero =>
    intro s
    exact ⟨by simp [rasterPositions], fun x y _ hy => absurd hy (Nat.not_lt_zero y),
      fun a b _ => by simp [rasterPositions]⟩
  | succ h ih =>
    intro s
    obtain ⟨ihc, ihv, ihu⟩ := ih s
    obtain ⟨rc, rv, ru⟩ := rowFold_spec bg fg x0 x1 y0 y1 h w
      ((rasterPositions w h).foldl (overlayStep bg fg x0 x1 y0 y1) s)
    have hfold : (rasterPositions w (h + 1)).foldl (overlayStep bg fg x0 x1 y0 y1) s
        = (rowList w h).foldl (overlayStep bg fg x0 x1 y0 y1)
            ((rasterPositions w h).foldl (overlayStep bg fg x0 x1 y0 y1) s) := by
      rw [rasterPositions_succ, List.foldl_append]
    refine ⟨?_, ?_, ?_⟩
    · rw [hfold, rc, ihc, rasterPositions_succ, List.countP_append]
      omega
    · intro x y hxw hy
      rcases Nat.lt_succ_iff_lt_or_eq.mp hy with hlt | heq
      · rw [hfold, ru x y (Or.inl (by omega))]
        exact ihv x y hxw hlt
      · subst heq
        rw [hfold, rv x hxw, ihc]
        have hbase := ihu x y (Or.inl (le_refl y))
        have hcv := cellVal_congr bg fg x0 x1 y0 y1 _ _
          (s.2 + List.countP (insideB x0 x1 y0 y1) (rasterPositions w y)
            + List.countP (insideB x0 x1 y0 y1) (rowList x y)) x y hbase
        rw [hcv]
        have hpp : List.countP (insideB x0 x1 y0 y1) (prefixPositions w x y)
            = List.countP (insideB x0 x1 y0 y1) (rasterPositions w y)
              + List.countP (insideB x0 x1 y0 y1) (rowList x y) := by
          rw [prefixPositions, List.countP_append]
        rw [hpp, Nat.add_assoc]
    · intro a b hab
      rw [hfold, ru a b (by omega)]
      exact ihu a b (by omega)

-- Counting the rectangle cells met by the traversal.

theorem countP_rowList (x0 x1 y0 y1 y : Nat) :
    ∀ n, List.countP (insideB x0 x1 y0 y1) (rowList n y)
      = if y0 ≤ y ∧ y < y1 then min x1 n - min x0 n else 0 := by
  intro n
  induction n with
  | zero =>
    simp only [rowList, List.range_zero, List.map_nil, List.countP_nil]
    split_ifs <;> simp
  | succ n ih =>
    rw [rowList_succ, List.countP_append, ih]
    have hsingle : List.countP (insideB x0 x1 y0 y1) [(n, y)]
        = if x0 ≤ n ∧ n < x1 ∧ y0 ≤ y ∧ y < y1 then 1 else 0 := by
      simp [List.countP_cons, insideB]
    rw [hsingle]
    split_ifs <;> omega

theorem countP_raster (x0 x1 y0 y1 w : Nat) :
    ∀ h, List.countP (insideB x0 x1 y0 y1) (rasterPositions w h)
      = (min y1 h - min y0 h) * (min x1 w - min x0 w) := by
  intro h
  induction h with
  | zero => simp [rasterPositions]
  | succ h ih =>
    rw [rasterPositions_succ, List.countP_append, ih, countP_rowList]
    split_ifs with hcond
    · have hstep : min y1 (h + 1) - min y0 (h + 1) = (min y1 h - min y0 h) + 1 := by omega
      rw [hstep, Nat.succ_mul]
    · have hstep : min y1 (h + 1) - min y0 (h + 1) = min y1 h - min y0 h := by omega
      rw [hstep]
      omega

-- The rectangle index consumed at an inside cell, and the foreground
-- pixel it yields.

theorem prefix_count_inside (x0 y0 fw fh w x y : Nat)
    (hx1 : x0 + fw ≤ w) (hx : x0 ≤ x) (hxlt : x < x0 + fw)
    (hy : y0 ≤ y) (hylt : y < y0 + fh) :
    List.countP (insideB x0 (x0 + fw) y0 (y0 + fh)) (prefixPositions w x y)
      = (y - y0) * fw + (x - x0) := by
  rw [prefixPositions, List.countP_append, countP_raster, countP_rowList]
  rw [if_pos ⟨hy, hylt⟩]
  have e1 : min (y0 + fh) y = y := by omega
  have e2 : min y0 y = y0 := by omega
  have e3 : min (x0 + fw) w = x0 + fw := by omega
  have e4 : min x0 w = x0 := by omega
  have e5 : min (x0 + fw) x = x := by omega
  have e6 : min x0 x = x0 := by omega
  rw [e1, e2, e3, e4, e5, e6, Nat.add_sub_cancel_left]

theorem fgPixel_inside (fg : Image) (x0 y0 x y : Nat)
    (hx : x0 ≤ x) (hxlt : x < x0 + fg.width)
    (hy : y0 ≤ y) (hylt : y < y0 + fg.height) :
    fgPixel fg ((y - y0) * fg.width + (x - x0)) = some (fg.pix (x - x0) (y - y0)) := by
  have hfw : 0 < fg.width := by omega
  have hxsub : x - x0 < fg.width := by omega
  have hysub : y - y0 < fg.height := by omega
  have hlt : (y - y0) * fg.width + (x - x0) < fg.width * fg.height := by
    calc (y - y0) * fg.width + (x - x0) < (y - y0) * fg.width + fg.width := by omega
      _ = ((y - y0) + 1) * fg.width := (Nat.succ_mul _ _).symm
      _ ≤ fg.height * fg.width := Nat.mul_le_mul_right _ (by omega)
      _ = fg.width * fg.height := Nat.mul_comm _ _
  have hmod : ((y - y0) * fg.width + (x - x0)) % fg.width = x - x0 := by
    rw [Nat.mul_comm (y - y0) fg.width, Nat.mul_add_mod, Nat.mod_eq_of_lt hxsub]
  have hdiv : ((y - y0) * fg.width + (x - x0)) / fg.width = y - y0 := by
    rw [Nat.mul_comm (y - y0) fg.width, Nat.mul_add_div hfw, Nat.div_eq_of_lt hxsub,
      Nat.add_zero]
  rw [fgPixel, if_pos hlt, hmod, hdiv]

-- The closed form of `overlay` at every in-range coordinate.

theorem Lib.overlay_pix (bg fg : Image) (hfw : fg.width ≤ bg.width)
    (hfh : fg.height ≤ bg.height) (x y : Nat) (hx : x < bg.width) (hy : y < bg.height) :
    (Lib.overlay bg fg).pix x y =
      if (bg.width - fg.width) / 2 ≤ x ∧ x < (bg.width + fg.width) / 2
          ∧ (bg.height - fg.height) / 2 ≤ y ∧ y < (bg.height + fg.height) / 2
      then (fg.pix (x - (bg.width - fg.width) / 2) (y - (bg.height - fg.height) / 2)).toRgb
      else (bg.pix x y).toRgb := by
  have hxe : (bg.width + fg.width) / 2 = (bg.width - fg.width) / 2 + fg.width := by omega
  have hye : (bg.height + fg.height) / 2 = (bg.height - fg.height) / 2 + fg.height := by omega
  have hxb : (bg.width - fg.width) / 2 + fg.width ≤ bg.width := by omega
  have hyb : (bg.height - fg.height) / 2 + fg.height ≤ bg.height := by omega
  obtain ⟨-, hv, -⟩ := rasterFold_spec bg fg ((bg.width - fg.width) / 2)
    ((bg.width + fg.width) / 2) ((bg.height - fg.height) / 2)
    ((bg.height + fg.height) / 2) bg.width bg.height (fun _ _ => ⟨0, 0, 0⟩, 0)
  have hrw : (Lib.overlay bg fg).pix x y
      = ((rasterPositions bg.width bg.height).foldl
          (overlayStep bg fg ((bg.width - fg.width) / 2) ((bg.width + fg.width) / 2)
            ((bg.height - fg.height) / 2) ((bg.height + fg.height) / 2))
          (fun _ _ => ⟨0, 0, 0⟩, 0)).1 x y := rfl
  rw [hrw, hv x y hx hy]
  by_cases hin : (bg.width - fg.width) / 2 ≤ x ∧ x < (bg.width + fg.width) / 2
      ∧ (bg.height - fg.height) / 2 ≤ y ∧ y < (bg.height + fg.height) / 2
  · obtain ⟨h1, h2, h3, h4⟩ := hin
    have hk : List.countP
        (insideB ((bg.width - fg.width) / 2) ((bg.width + fg.width) / 2)
          ((bg.height - fg.height) / 2) ((bg.height + fg.height) / 2))
        (prefixPositions bg.width x y)
        = (y - (bg.height - fg.height) / 2) * fg.width + (x - (bg.width - fg.width) / 2) := by
      rw [hxe, hye]
      exact prefix_count_inside _ _ fg.width fg.height bg.width x y hxb h1 (by omega)
        h3 (by omega)
    have hfg := fgPixel_inside fg ((bg.width - fg.width) / 2) ((bg.height - fg.height) / 2)
      x y h1 (by omega) h3 (by omega)
    rw [cellVal, if_pos (by simp [insideB]; exact ⟨h1, h2, h3, h4⟩), Nat.zero_add, hk, hfg,
      if_pos ⟨h1, h2, h3, h4⟩]
  · rw [cellVal, if_neg (by simp [insideB]; intro a b c; by_contra hcon; exact hin ⟨a, b, c, by omega⟩),
      if_neg hin]

/-- C2: for `fg` fitting inside `bg`, the overlay has `bg`'s
dimensions, and each pixel is the foreground pixel consumed in raster
order when the coordinate lies in the centered rectangle
`[(bg_w−fg_w)/2, (bg_w+fg_w)/2) × [(bg_h−fg_h)/2, (bg_h+fg_h)/2)`
(namely `fg`'s pixel at the coordinate relative to the rectangle
origin), and otherwise `bg`'s pixel at `(x, y)`; the alpha channel is
discarded in both cases (the output is RGB). -/
theorem c2_overlay (bg fg : Image) (hfw : fg.width ≤ bg.width)
    (hfh : fg.height ≤ bg.height) (x y : Nat) (hx : x < bg.width) (hy : y < bg.height) :
    (Lib.overlay bg fg).width = bg.width ∧ (Lib.overlay bg fg).height = bg.height ∧
    (Lib.overlay bg fg).pix x y =
      (if (bg.width - fg.width) / 2 ≤ x ∧ x < (bg.width + fg.width) / 2
          ∧ (bg.height - fg.height) / 2 ≤ y ∧ y < (bg.height + fg.height) / 2
      then (fg.pix (x - (bg.width - fg.width) / 2) (y - (bg.height - fg.height) / 2)).toRgb
      else (bg.pix x y).toRgb) :=
  ⟨rfl, rfl, Lib.overlay_pix bg fg hfw hfh x y hx hy⟩

theorem c2_overlay_witness :
    ((⟨1, 1, fun _ _ => ⟨10, 20, 30, 40⟩⟩ : Image).width
        ≤ (⟨2, 2, fun _ _ => ⟨1, 2, 3, 4⟩⟩ : Image).width) ∧
    ((⟨1, 1, fun _ _ => ⟨10, 20, 30, 40⟩⟩ : Image).height
        ≤ (⟨2, 2, fun _ _ => ⟨1, 2, 3, 4⟩⟩ : Image).height) ∧
    0 < (⟨2, 2, fun _ _ => ⟨1, 2, 3, 4⟩⟩ : Image).width ∧
    0 < (⟨2, 2, fun _ _ => ⟨1, 2, 3, 4⟩⟩ : Image).height ∧
    ((Lib.overlay ⟨2, 2, fun _ _ => ⟨1, 2, 3, 4⟩⟩ ⟨1, 1, fun _ _ => ⟨10, 20, 30, 40⟩⟩).width
        = (⟨2, 2, fun _ _ => ⟨1, 2, 3, 4⟩⟩ : Image).width ∧
      (Lib.overlay ⟨2, 2, fun _ _ => ⟨1, 2, 3, 4⟩⟩ ⟨1, 1, fun _ _ => ⟨10, 20, 30, 40⟩⟩).height
        = (⟨2, 2, fun _ _ => ⟨1, 2, 3, 4⟩⟩ : Image).height ∧
      (Lib.overlay ⟨2, 2, fun _ _ => ⟨1, 2, 3, 4⟩⟩ ⟨1, 1, fun _ _ => ⟨10, 20, 30, 40⟩⟩).pix 0 0 =
        (if (2 - 1) / 2 ≤ 0 ∧ 0 < (2 + 1) / 2 ∧ (2 - 1) / 2 ≤ 0 ∧ 0 < (2 + 1) / 2
        then ((⟨1, 1, fun _ _ => ⟨10, 20, 30, 40⟩⟩ : Image).pix (0 - (2 - 1) / 2)
          (0 - (2 - 1) / 2)).toRgb
        else ((⟨2, 2, fun _ _ => ⟨1, 2, 3, 4⟩⟩ : Image).pix 0 0).toRgb)) :=
  ⟨by decide, by decide, by decide, by decide,
    c2_overlay ⟨2, 2, fun _ _ => ⟨1, 2, 3, 4⟩⟩ ⟨1, 1, fun _ _ => ⟨10, 20, 30, 40⟩⟩
      (by decide) (by decide) 0 0 (by decide) (by decide)⟩

/-- C6: for a positive foreground fitting inside the background, the
centered rectangle has exactly `fg.width` columns and `fg.height` rows,
the number of rectangle cells met by the whole traversal equals the
foreground pixel count, and at every inside coordinate the
foreground-iterator poll succeeds (`isSome`): the silent fallback
branch that would leave the zero-initialized buffer in place is
unreachable. -/
theorem c6_no_exhaustion (bg fg : Image) (x y : Nat)
    (hfw : fg.width ≤ bg.width) (hfh : fg.height ≤ bg.height)
    (h0w : 0 < fg.width) (h0h : 0 < fg.height)
    (hin : (bg.width - fg.width) / 2 ≤ x ∧ x < (bg.width + fg.width) / 2
        ∧ (bg.height - fg.height) / 2 ≤ y ∧ y < (bg.height + fg.height) / 2) :
    (bg.width + fg.width) / 2 - (bg.width - fg.width) / 2 = fg.width ∧
    (bg.height + fg.height) / 2 - (bg.height - fg.height) / 2 = fg.height ∧
    List.countP
        (insideB ((bg.width - fg.width) / 2) ((bg.width + fg.width) / 2)
          ((bg.height - fg.height) / 2) ((bg.height + fg.height) / 2))
        (rasterPositions bg.width bg.height) = fg.width * fg.height ∧
    (fgPixel fg (List.countP
        (insideB ((bg.width - fg.width) / 2) ((bg.width + fg.width) / 2)
          ((bg.height - fg.height) / 2) ((bg.height + fg.height) / 2))
        (prefixPositions bg.width x y))).isSome = true := by
  have hxe : (bg.width + fg.width) / 2 = (bg.width - fg.width) / 2 + fg.width := by omega
  have hye : (bg.height + fg.height) / 2 = (bg.height - fg.height) / 2 + fg.height := by omega
  have hxb : (bg.width - fg.width) / 2 + fg.width ≤ bg.width := by omega
  have hyb : (bg.height - fg.height) / 2 + fg.height ≤ bg.height := by omega
  obtain ⟨h1, h2, h3, h4⟩ := hin
  refine ⟨by omega, by omega, ?_, ?_⟩
  · rw [countP_raster]
    have e1 : min ((bg.height + fg.height) / 2) bg.height = (bg.height + fg.height) / 2 := by
      omega
    have e2 : min ((bg.height - fg.height) / 2) bg.height = (bg.height - fg.height) / 2 := by
      omega
    have e3 : min ((bg.width + fg.width) / 2) bg.width = (bg.width + fg.width) / 2 := by omega
    have e4 : min ((bg.width - fg.width) / 2) bg.width = (bg.width - fg.width) / 2 := by omega
    have e5 : (bg.height + fg.height) / 2 - (bg.height - fg.height) / 2 = fg.height := by omega
    have e6 : (bg.width + fg.width) / 2 - (bg.width - fg.width) / 2 = fg.width := by omega
    rw [e1, e2, e3, e4, e5, e6, Nat.mul_comm]
  · have hk : List.countP
        (insideB ((bg.width - fg.width) / 2) ((bg.width + fg.width) / 2)
          ((bg.height - fg.height) / 2) ((bg.height + fg.height) / 2))
        (prefixPositions bg.width x y)
        = (y - (bg.height - fg.height) / 2) * fg.width + (x - (bg.width - fg.width) / 2) := by
      rw [hxe, hye]
      exact prefix_count_inside _ _ fg.width fg.height bg.width x y hxb h1 (by omega)
        h3 (by omega)
    rw [hk, fgPixel_inside fg ((bg.width - fg.width) / 2) ((bg.height - fg.height) / 2)
      x y h1 (by omega) h3 (by omega)]
    rfl

theorem c6_no_exhaustion_witness :
    ((⟨1, 1, fun _ _ => ⟨10, 20, 30, 40⟩⟩ : Image).width
        ≤ (⟨2, 2, fun _ _ => ⟨1, 2, 3, 4⟩⟩ : Image).width) ∧
    ((⟨1, 1, fun _ _ => ⟨10, 20, 30, 40⟩⟩ : Image).height
        ≤ (⟨2, 2, fun _ _ => ⟨1, 2, 3, 4⟩⟩ : Image).height) ∧
    0 < (⟨1, 1, fun _ _ => ⟨10, 20, 30, 40⟩⟩ : Image).width ∧
    0 < (⟨1, 1, fun _ _ => ⟨10, 20, 30, 40⟩⟩ : Image).height ∧
    ((2 + 1) / 2 - (2 - 1) / 2 = (⟨1, 1, fun _ _ => ⟨10, 20, 30, 40⟩⟩ : Image).width ∧
      (2 + 1) / 2 - (2 - 1) / 2 = (⟨1, 1, fun _ _ => ⟨10, 20, 30, 40⟩⟩ : Image).height ∧
      List.countP (insideB ((2 - 1) / 2) ((2 + 1) / 2) ((2 - 1) / 2) ((2 + 1) / 2))
        (rasterPositions 2 2)
        = (⟨1, 1, fun _ _ => ⟨10, 20, 30, 40⟩⟩ : Image).width
            * (⟨1, 1, fun _ _ => ⟨10, 20, 30, 40⟩⟩ : Image).height ∧
      (fgPixel ⟨1, 1, fun _ _ => ⟨10, 20, 30, 40⟩⟩
        (List.countP (insideB ((2 - 1) / 2) ((2 + 1) / 2) ((2 - 1) / 2) ((2 + 1) / 2))
          (prefixPositions 2 0 0))).isSome = true) :=
  ⟨by decide, by decide, by decide, by decide,
    c6_no_exhaustion ⟨2, 2, fun _ _ => ⟨1, 2, 3, 4⟩⟩ ⟨1, 1, fun _ _ => ⟨10, 20, 30, 40⟩⟩
      0 0 (by decide) (by decide) (by decide) (by decide) (by decide)⟩

-- When the foreground covers the whole background, every pixel is a
-- foreground pixel.

theorem Lib.overlay_full_cover (bg fg : Image) (hw : bg.width = fg.width)
    (hh : bg.height = fg.height) (x y : Nat) (hx : x < fg.width) (hy : y < fg.height) :
    (Lib.overlay bg fg).pix x y = (fg.pix x y).toRgb := by
  have h := Lib.overlay_pix bg fg (by omega) (by omega) x y (by omega) (by omega)
  have e1 : (bg.width - fg.width) / 2 = 0 := by omega
  have e2 : (bg.width + fg.width) / 2 = fg.width := by omega
  have e3 : (bg.height - fg.height) / 2 = 0 := by omega
  have e4 : (bg.height + fg.height) / 2 = fg.height := by omega
  rw [h, e1, e2, e3, e4, if_pos ⟨Nat.zero_le x, hx, Nat.zero_le y, hy⟩,
    Nat.sub_zero, Nat.sub_zero]

/-- C5: for a square source (`w = h = n > 0`) the geometry is the
identity (`side = factor = n`, resized dims `(n, n)`, crop `(0, 0)`),
and the pipeline's final image is `n × n` and equal, pixel for pixel,
to the source as RGB — the centered rectangle covers the whole canvas,
so no blurred background pixel appears, whatever the resampler and the
blur kernel do. -/
theorem c5_square_source (img : Image) (resample : Image → Nat → Nat → Image)
    (gauss : List Rgb → List Rgb) (n : Nat) (hn : 0 < n)
    (hw : img.width = n) (hh : img.height = n) (x y : Nat) (hx : x < n) (hy : y < n) :
    Lib.planGeometry n n = ⟨n, n, n, n, 0, 0⟩ ∧
    (Lib.runPipeline resample gauss img).width = n ∧
    (Lib.runPipeline resample gauss img).height = n ∧
    (Lib.runPipeline resample gauss img).pix x y = (img.pix x y).toRgb := by
  have gplan : Lib.planGeometry n n = ⟨n, n, n, n, 0, 0⟩ := by
    simp [Lib.planGeometry, Nat.mul_div_cancel n hn]
  refine ⟨gplan, ?_, ?_, ?_⟩
  · show (Lib.planGeometry img.width img.height).sqside = n
    rw [hw, hh, gplan]
  · show (Lib.planGeometry img.width img.height).sqside = n
    rw [hw, hh, gplan]
  · show (Lib.overlay (Lib.blur gauss (cropImage
        (resample img (Lib.planGeometry img.width img.height).resizedWidth
          (Lib.planGeometry img.width img.height).resizedHeight)
        (Lib.planGeometry img.width img.height).cropX
        (Lib.planGeometry img.width img.height).cropY
        (Lib.planGeometry img.width img.height).sqside
        (Lib.planGeometry img.width img.height).sqside)).toDyn img).pix x y
      = (img.pix x y).toRgb
    apply Lib.overlay_full_cover
    · show (Lib.planGeometry img.width img.height).sqside = img.width
      rw [hw, hh, gplan]
    · show (Lib.planGeometry img.width img.height).sqside = img.height
      rw [hw, hh, gplan]
    · omega
    · omega

theorem c5_square_source_witness :
    0 < 1 ∧
    (⟨1, 1, fun _ _ => ⟨5, 6, 7, 8⟩⟩ : Image).width = 1 ∧
    (⟨1, 1, fun _ _ => ⟨5, 6, 7, 8⟩⟩ : Image).height = 1 ∧
    0 < 1 ∧ 0 < 1 ∧
    (Lib.planGeometry 1 1 = ⟨1, 1, 1, 1, 0, 0⟩ ∧
      (Lib.runPipeline (fun i _ _ => i) (fun l => l)
        ⟨1, 1, fun _ _ => ⟨5, 6, 7, 8⟩⟩).width = 1 ∧
      (Lib.runPipeline (fun i _ _ => i) (fun l => l)
        ⟨1, 1, fun _ _ => ⟨5, 6, 7, 8⟩⟩).height = 1 ∧
      (Lib.runPipeline (fun i _ _ => i) (fun l => l)
        ⟨1, 1, fun _ _ => ⟨5, 6, 7, 8⟩⟩).pix 0 0
        = ((⟨1, 1, fun _ _ => ⟨5, 6, 7, 8⟩⟩ : Image).pix 0 0).toRgb) :=
  ⟨by decide, by decide, by decide, by decide, by decide,
    c5_square_source ⟨1, 1, fun _ _ => ⟨5, 6, 7, 8⟩⟩ (fun i _ _ => i) (fun l => l) 1
      (by decide) (by decide) (by decide) 0 0 (by decide) (by decide)⟩

/-- C10: the core pipeline of `src/lib.rs` (`run`) and the core
pipeline of `src/main.rs` (`main`) — geometry, resize, centered crop,
blur, overlay — produce equal final images for every decoded source
with positive dimensions (and any resampler/blur collaborators, which
both variants invoke identically). -/
theorem c10_lib_main_agree (resample : Image → Nat → Nat → Image)
    (gauss : List Rgb → List Rgb) (img : Image)
    (hw : 0 < img.width) (hh : 0 < img.height) :
    Lib.runPipeline resample gauss img = Main.runPipeline resample gauss img := rfl

theorem c10_lib_main_agree_witness :
    0 < (⟨1, 1, fun _ _ => ⟨7, 8, 9, 10⟩⟩ : Image).width ∧
    0 < (⟨1, 1, fun _ _ => ⟨7, 8, 9, 10⟩⟩ : Image).height ∧
    Lib.runPipeline (fun i _ _ => i) (fun l => l) ⟨1, 1, fun _ _ => ⟨7, 8, 9, 10⟩⟩
      = Main.runPipeline (fun i _ _ => i) (fun l => l) ⟨1, 1, fun _ _ => ⟨7, 8, 9, 10⟩⟩ :=
  ⟨by decide, by decide,
    c10_lib_main_agree (fun i _ _ => i) (fun l => l)
      ⟨1, 1, fun _ _ => ⟨7, 8, 9, 10⟩⟩ (by decide) (by decide)⟩

-- The confirm loop on a declining stdin.

theorem confirmRun_stop (junk : List String) (ans : String)
    (hjunk : ∀ l ∈ junk, Lib.normalizeResp l ≠ "y" ∧ Lib.normalizeResp l ≠ "yes"
        ∧ Lib.normalizeResp l ≠ "n" ∧ Lib.normalizeResp l ≠ "no")
    (hans : Lib.normalizeResp ans = "n" ∨ Lib.normalizeResp ans = "no") :
    Lib.confirmRun (junk ++ [ans]) = some (Lib.ConfirmResult.Stop, junk.length + 1) := by
  induction junk with
  | nil =>
    rcases hans with h | h <;> simp [Lib.confirmRun, h]
  | cons l rest ih =>
    have hl := hjunk l (List.mem_cons_self l rest)
    have hrest : ∀ l' ∈ rest, Lib.normalizeResp l' ≠ "y" ∧ Lib.normalizeResp l' ≠ "yes"
        ∧ Lib.normalizeResp l' ≠ "n" ∧ Lib.normalizeResp l' ≠ "no" :=
      fun l' hl' => hjunk l' (List.mem_cons_of_mem l hl')
    simp only [List.cons_append, Lib.confirmRun, hl.1, hl.2.1, hl.2.2.1, hl.2.2.2,
      List.append_eq]
    rw [ih hrest]
    simp

/-- C7: with the output path an existing regular file and stdin made of
finitely many unrecognized lines followed by a line normalizing
(trim + lowercase) to `n` or `no`, the process exits with status 0,
performs no rename and no write (the existing file is untouched and no
backup is created), and prints exactly one prompt per line consumed —
one re-prompt per unrecognized line. -/
theorem c7_decline_overwrite (junk : List String) (ans : String) (clock : Option Nat)
    (hjunk : ∀ l ∈ junk, Lib.normalizeResp l ≠ "y" ∧ Lib.normalizeResp l ≠ "yes"
        ∧ Lib.normalizeResp l ≠ "n" ∧ Lib.normalizeResp l ≠ "no")
    (hans : Lib.normalizeResp ans = "n" ∨ Lib.normalizeResp ans = "no") :
    Lib.saveImageToPath Lib.PathKind.file (junk ++ [ans]) clock
      = some ⟨0, [], junk.length + 1⟩ := by
  simp [Lib.saveImageToPath, confirmRun_stop junk ans hjunk hans]

theorem c7_decline_overwrite_witness :
    (∀ l ∈ ["ok"], Lib.normalizeResp l ≠ "y" ∧ Lib.normalizeResp l ≠ "yes"
        ∧ Lib.normalizeResp l ≠ "n" ∧ Lib.normalizeResp l ≠ "no") ∧
    (Lib.normalizeResp "NO" = "n" ∨ Lib.normalizeResp "NO" = "no") ∧
    Lib.saveImageToPath Lib.PathKind.file (["ok"] ++ ["NO"]) (some 5)
      = some ⟨0, [], List.length ["ok"] + 1⟩ :=
  ⟨by decide, by decide, c7_decline_overwrite ["ok"] "NO" (some 5) (by decide) (by decide)⟩

/-- C8: with the output path an existing regular file and the user
confirming overwrite, the existing file is renamed — before the new
file is written — to a file in the temporary directory named by the
fixed prefix `BACKUP` followed by `-` and the millisecond Unix
timestamp, or bare `BACKUP` (empty suffix) when the clock read fails. -/
theorem c8_backup_then_write (stdin : List String) (n : Nat) (ms : Nat)
    (h : Lib.confirmRun stdin = some (Lib.ConfirmResult.Continue, n)) :
    Lib.saveImageToPath Lib.PathKind.file stdin (some ms)
        = some ⟨0, [Lib.FsAction.rename ("BACKUP-" ++ toString ms), Lib.FsAction.write], n⟩ ∧
    Lib.saveImageToPath Lib.PathKind.file stdin none
        = some ⟨0, [Lib.FsAction.rename "BACKUP", Lib.FsAction.write], n⟩ := by
  have hb2 : ("BACKUP" ++ "-" : String) = "BACKUP-" := by decide
  have hb : ("BACKUP" ++ ("-" ++ toString ms)) = ("BACKUP-" ++ toString ms) := by
    rw [← String.append_assoc, hb2]
  constructor
  · simp [Lib.saveImageToPath, h, Lib.getTimestampSuffix, hb]
  · simp [Lib.saveImageToPath, h, Lib.getTimestampSuffix]

theorem c8_backup_then_write_witness :
    Lib.confirmRun ["y"] = some (Lib.ConfirmResult.Continue, 1) ∧
    (Lib.saveImageToPath Lib.PathKind.file ["y"] (some 1234)
        = some ⟨0, [Lib.FsAction.rename ("BACKUP-" ++ toString 1234), Lib.FsAction.write], 1⟩ ∧
      Lib.saveImageToPath Lib.PathKind.file ["y"] none
        = some ⟨0, [Lib.FsAction.rename "BACKUP", Lib.FsAction.write], 1⟩) :=
  ⟨by decide, c8_backup_then_write ["y"] 1 1234 (by decide)⟩
